import Mathlib

/-!
Shallow embedding of the sequence-container library: a growable array
(`ArrayList`, from src/src/ArrayList.cpp), a sentinel-based doubly linked
sequence (`LinkedList`, from src/src/LinkedList.cpp), and the Stack/Queue
adapters declared in src/include/StackAdapter.h and src/include/QueueAdapter.h.

Buffers (`new T[n]`) are modelled as Lean lists of length `n` whose fresh
slots hold `default` (C++ value-initialisation of the element type).
Exceptions are modelled with `Except`: `std::out_of_range(index)` becomes
`CError.outOfRange index` and the adapters' `Underflow` becomes
`CError.underflow`. A C++ method that throws leaves the object untouched, so
a mutator returning `Except.error e` leaves the caller holding the original
container value; `runOr` makes that observed post-state explicit.
-/

/-- Error conditions of the library: `outOfRange` models `std::out_of_range`
thrown by the sequences with the offending index as its message; `underflow`
models the adapters' `Underflow` exception class. -/
inductive CError where
  | outOfRange (index : Nat)
  | underflow
deriving DecidableEq, Repr

/-- Observed state of a container after a call that may throw: on success the
new state, on an exception the container is exactly as it was before. -/
def runOr {C : Type _} (original : C) : Except CError C → C
  | Except.ok c => c
  | Except.error _ => original

/-- Models `std::copy(src.begin(), src.end(), dst_buffer + offset)`: writes the
whole of `src` into the buffer `dst` starting at position `offset`. -/
def copyTo {α : Type _} (dst : List α) (offset : Nat) (src : List α) : List α :=
  dst.take offset ++ src ++ dst.drop (offset + src.length)

/-- Models `std::fill(dst_buffer + lo, dst_buffer + hi, v)`. -/
def fillRange {α : Type _} (dst : List α) (lo hi : Nat) (v : α) : List α :=
  copyTo dst lo (List.replicate (hi - lo) v)

/-- Models `std::equal(first1, last1, first2)`: compares the full first range
against the same number of leading elements of the second buffer. -/
def eqlRange {α : Type _} [BEq α] : List α → List α → Bool
  | [], _ => true
  | _ :: _, [] => false
  | x :: xs, y :: ys => x == y && eqlRange xs ys

/-- The growable array of src/src/ArrayList.cpp: a logical size, a capacity,
and the backing buffer (`mArray`, length `mCapacity` in well-formed states). -/
structure ArrayList (α : Type _) where
  mSize : Nat
  mCapacity : Nat
  mArray : List α
deriving DecidableEq, Repr

namespace ArrayList

variable {α : Type _}

/-- Constructor `ArrayList(size_t size = 0, const_reference value = T())`:
capacity `size * 2`, fresh buffer, first `size` slots filled with `value`. -/
def ctor [Inhabited α] (size : Nat) (value : α) : ArrayList α :=
  { mSize := size
    mCapacity := size * 2
    mArray := fillRange (List.replicate (size * 2) default) 0 size value }

/-- The logical contents `[begin(), end())`: the first `mSize` buffer slots. -/
def toList (l : ArrayList α) : List α :=
  l.mArray.take l.mSize

/-- Copy constructor `ArrayList(const ArrayList& src)`: copies only the
logical elements; capacity becomes `src.mSize` (excess capacity is dropped). -/
def copyCtor [Inhabited α] (src : ArrayList α) : ArrayList α :=
  { mSize := src.mSize
    mCapacity := src.mSize
    mArray := copyTo (List.replicate src.mSize default) 0 src.toList }

/-- Assignment `operator=`: copy-and-swap with `rhs` (the `this != &rhs`
pointer-identity test has no observable effect on the value). -/
def assign [Inhabited α] (_lhs rhs : ArrayList α) : ArrayList α :=
  copyCtor rhs

/-- Private `rangeCheck(index)`: throws `std::out_of_range` carrying the index
when `index >= mSize`, otherwise a no-op. -/
def rangeCheck (l : ArrayList α) (index : Nat) : Except CError Unit :=
  if index ≥ l.mSize then Except.error (CError.outOfRange index) else Except.ok ()

/-- Checked accessor `get(index)`. -/
def get [Inhabited α] (l : ArrayList α) (index : Nat) : Except CError α := do
  l.rangeCheck index
  pure (l.mArray.getD index default)

/-- Unchecked `operator[]` (no bounds check; out of range is UB in C++,
modelled with the `default` fallback of `getD`). -/
def atIdx [Inhabited α] (l : ArrayList α) (index : Nat) : α :=
  l.mArray.getD index default

/-- Append `add(const_reference value)`: grows to a fresh buffer of
`2 * mSize + 2` slots when full, then writes `value` at slot `mSize`. -/
def add [Inhabited α] (l : ArrayList α) (value : α) : ArrayList α :=
  let l' :=
    if l.mSize ≥ l.mCapacity then
      { l with
        mArray := copyTo (List.replicate (2 * l.mSize + 2) default) 0 l.toList
        mCapacity := 2 * l.mSize + 2 }
    else l
  { l' with mArray := l'.mArray.set l'.mSize value, mSize := l'.mSize + 1 }

/-- Positional insert `add(size_t index, const_reference value)`: always
rebuilds into a fresh buffer of `2 * (max index mSize + 1)` slots. -/
def addAt [Inhabited α] (l : ArrayList α) (index : Nat) (value : α) : ArrayList α :=
  let newSize := max index l.mSize + 1
  let newCap := 2 * newSize
  let temp := copyTo (List.replicate newCap default) 0 (l.toList.take index)
  let temp :=
    if index < l.mSize then
      copyTo temp (index + 1) (l.toList.drop index)
    else
      fillRange temp l.mSize index default
  { mArray := temp.set index value, mSize := newSize, mCapacity := newCap }

/-- Method `clear()`: swap with a default-constructed `ArrayList` (size 0,
capacity 0, buffer released). -/
def clear (_l : ArrayList α) : ArrayList α :=
  { mSize := 0, mCapacity := 0, mArray := [] }

/-- Method `remove(index)`: range-checks, copies out the element, and unless
it is the last element rebuilds a buffer of the same capacity without it. -/
def remove [Inhabited α] (l : ArrayList α) (index : Nat) :
    Except CError (α × ArrayList α) := do
  l.rangeCheck index
  let result := l.mArray.getD index default
  let l' :=
    if index < l.mSize - 1 then
      { l with
        mArray := copyTo (copyTo (List.replicate l.mCapacity default) 0
          (l.toList.take index)) index (l.toList.drop (index + 1)) }
    else l
  pure (result, { l' with mSize := l'.mSize - 1 })

/-- Method `set(index, value)`: range-checks then assigns in place. -/
def set (l : ArrayList α) (index : Nat) (value : α) :
    Except CError (ArrayList α) := do
  l.rangeCheck index
  pure { l with mArray := l.mArray.set index value }

/-- Method `size()`. -/
def size (l : ArrayList α) : Nat :=
  l.mSize

/-- Method `isEmpty()`. -/
def isEmpty (l : ArrayList α) : Bool :=
  l.mSize == 0

/-- Equality `operator==`: sizes match and `std::equal` over the logical
ranges. -/
def beq [BEq α] (l rhs : ArrayList α) : Bool :=
  l.mSize == rhs.mSize && eqlRange l.toList rhs.mArray

/-- Well-formedness invariant of reachable `ArrayList` states: the buffer has
exactly `mCapacity` slots and the logical size fits in it. -/
def WF (l : ArrayList α) : Prop :=
  l.mSize ≤ l.mCapacity ∧ l.mArray.length = l.mCapacity

instance (l : ArrayList α) : Decidable l.WF := by
  unfold WF; infer_instance

end ArrayList

/-- The sentinel-based doubly linked sequence of src/src/LinkedList.cpp.
The circular chain through the sentinel `mTail` is represented by the list
of the element values of its non-sentinel nodes in order (`sentinel.next`
first, `sentinel.prev` last); `mSize` is the separately tracked counter. -/
structure LinkedList (α : Type _) where
  mSize : Nat
  chain : List α
deriving DecidableEq, Repr

namespace LinkedList

variable {α : Type _}

/-- Default constructor: size 0 and a lone sentinel (empty chain). -/
def ctor : LinkedList α :=
  { mSize := 0, chain := [] }

/-- Copy constructor: builds a temporary list by appending each element of
`src` in iteration order (the whole chain), then swaps it in. -/
def copyCtor (src : LinkedList α) : LinkedList α :=
  { mSize := src.chain.length, chain := src.chain }

/-- Assignment `operator=`: copy-and-swap with `rhs` (the `this != &rhs`
pointer-identity test has no observable effect on the value). -/
def assign (_lhs rhs : LinkedList α) : LinkedList α :=
  copyCtor rhs

/-- Append `add(const_reference value)`: a new node linked in immediately
before the sentinel, then `++mSize`. -/
def add (l : LinkedList α) (value : α) : LinkedList α :=
  { mSize := l.mSize + 1, chain := l.chain ++ [value] }

/-- Positional insert `add(size_t index, const_reference value)`: when
`index < mSize`, splice a node in before the node at `index`; otherwise build
a temporary chain of `index - size` default-valued nodes followed by `value`,
splice it onto the tail, and set `mSize` to `index + 1`. -/
def addAt [Inhabited α] (l : LinkedList α) (index : Nat) (value : α) : LinkedList α :=
  if index < l.mSize then
    { mSize := l.mSize + 1
      chain := l.chain.take index ++ [value] ++ l.chain.drop index }
  else
    { mSize := index + 1
      chain := l.chain ++ (List.replicate (index - l.mSize) default ++ [value]) }

/-- Method `clear()`: swap with a default-constructed `LinkedList`. -/
def clear (_l : LinkedList α) : LinkedList α :=
  { mSize := 0, chain := [] }

/-- Private `rangeCheck(index)`: throws `std::out_of_range` carrying the index
when `index >= mSize`, otherwise a no-op. -/
def rangeCheck (l : LinkedList α) (index : Nat) : Except CError Unit :=
  if index ≥ l.mSize then Except.error (CError.outOfRange index) else Except.ok ()

/-- Checked accessor `get(index)`: range-checks then walks `index` nodes from
the head. -/
def get [Inhabited α] (l : LinkedList α) (index : Nat) : Except CError α := do
  l.rangeCheck index
  pure (l.chain.getD index default)

/-- Method `remove(index)`: range-checks, walks to the node, unlinks and
deletes it, and decrements `mSize`. -/
def remove (l : LinkedList α) (index : Nat) : Except CError (LinkedList α) := do
  l.rangeCheck index
  pure { mSize := l.mSize - 1, chain := l.chain.eraseIdx index }

/-- Method `set(index, value)`: range-checks, links a replacement node
carrying `value` in between the old node's neighbours, and deletes the old
node. -/
def set (l : LinkedList α) (index : Nat) (value : α) :
    Except CError (LinkedList α) := do
  l.rangeCheck index
  pure { l with chain := l.chain.set index value }

/-- Method `size()`. -/
def size (l : LinkedList α) : Nat :=
  l.mSize

/-- Method `isEmpty()`. -/
def isEmpty (l : LinkedList α) : Bool :=
  l.mSize == 0

/-- Equality `operator==`: sizes match and `std::equal` over the chains. -/
def beq [BEq α] (l rhs : LinkedList α) : Bool :=
  l.mSize == rhs.mSize && eqlRange l.chain rhs.chain

/-- Well-formedness invariant of reachable `LinkedList` states: the tracked
counter equals the number of non-sentinel nodes. -/
def WF (l : LinkedList α) : Prop :=
  l.chain.length = l.mSize

instance (l : LinkedList α) : Decidable l.WF := by
  unfold WF; infer_instance

end LinkedList

/-- The structural contract required of the wrapped container by
src/include/StackAdapter.h and src/include/QueueAdapter.h: `add`,
checked `get`, `remove` and `size`. -/
structure SeqOps (C : Type _) (α : Type _) where
  add : C → α → C
  get : C → Nat → Except CError α
  removeAt : C → Nat → Except CError C
  size : C → Nat

/-- The `ArrayList` instantiation of the container contract (the adapter
discards `ArrayList::remove`'s returned copy). -/
def arrayOps (α : Type _) [Inhabited α] : SeqOps (ArrayList α) α :=
  { add := ArrayList.add
    get := ArrayList.get
    removeAt := fun c i => (c.remove i).map Prod.snd
    size := ArrayList.size }

/-- The `LinkedList` instantiation of the container contract. -/
def linkedOps (α : Type _) [Inhabited α] : SeqOps (LinkedList α) α :=
  { add := LinkedList.add
    get := LinkedList.get
    removeAt := LinkedList.remove
    size := LinkedList.size }

/-- Stack adapter state: wraps one container instance. -/
structure StackAdapter (C : Type _) where
  mContainer : C

namespace StackAdapter

variable {C : Type _} {α : Type _}

/-- Modelled from the spec: src/src/StackAdapter.cpp is absent from the
sources (only src/include/StackAdapter.h declares it). Spec §4.3: `push` =
append at tail. -/
def push (ops : SeqOps C α) (s : StackAdapter C) (value : α) : StackAdapter C :=
  ⟨ops.add s.mContainer value⟩

/-- Modelled from the spec: src/src/StackAdapter.cpp is absent from the
sources. Spec §4.3: the adapter checks emptiness itself and raises Underflow
on an empty stack; otherwise `pop` operates on index `size()-1`. -/
def pop (ops : SeqOps C α) (s : StackAdapter C) : Except CError (StackAdapter C) :=
  if ops.size s.mContainer = 0 then Except.error CError.underflow
  else (ops.removeAt s.mContainer (ops.size s.mContainer - 1)).map StackAdapter.mk

/-- Modelled from the spec: src/src/StackAdapter.cpp is absent from the
sources. Spec §4.3: the adapter checks emptiness itself and raises Underflow
on an empty stack; otherwise `top` operates on index `size()-1`. -/
def top (ops : SeqOps C α) (s : StackAdapter C) : Except CError α :=
  if ops.size s.mContainer = 0 then Except.error CError.underflow
  else ops.get s.mContainer (ops.size s.mContainer - 1)

/-- Method `size()`: pass-through to the container. -/
def size (ops : SeqOps C α) (s : StackAdapter C) : Nat :=
  ops.size s.mContainer

end StackAdapter

/-- Queue adapter state: wraps one container instance. -/
structure QueueAdapter (C : Type _) where
  mContainer : C

namespace QueueAdapter

variable {C : Type _} {α : Type _}

/-- Modelled from the spec: src/src/QueueAdapter.cpp is absent from the
sources (only src/include/QueueAdapter.h declares it). Spec §4.3: `enqueue`
= append at tail. -/
def enqueue (ops : SeqOps C α) (q : QueueAdapter C) (value : α) : QueueAdapter C :=
  ⟨ops.add q.mContainer value⟩

/-- Modelled from the spec: src/src/QueueAdapter.cpp is absent from the
sources. Spec §4.3: the adapter checks emptiness itself and raises Underflow
on an empty queue; otherwise `dequeue` operates on index 0. -/
def dequeue (ops : SeqOps C α) (q : QueueAdapter C) : Except CError (QueueAdapter C) :=
  if ops.size q.mContainer = 0 then Except.error CError.underflow
  else (ops.removeAt q.mContainer 0).map QueueAdapter.mk

/-- Modelled from the spec: src/src/QueueAdapter.cpp is absent from the
sources. Spec §4.3: the adapter checks emptiness itself and raises Underflow
on an empty queue; otherwise `front` operates on index 0. -/
def front (ops : SeqOps C α) (q : QueueAdapter C) : Except CError α :=
  if ops.size q.mContainer = 0 then Except.error CError.underflow
  else ops.get q.mContainer 0

/-- Method `size()`: pass-through to the container. -/
def size (ops : SeqOps C α) (q : QueueAdapter C) : Nat :=
  ops.size q.mContainer

end QueueAdapter

/-- Pushes v1..vn (the elements of `vs`, in order) onto the stack. -/
def pushAll {C : Type _} {α : Type _} (ops : SeqOps C α) (s : StackAdapter C)
    (vs : List α) : StackAdapter C :=
  vs.foldl (fun t v => StackAdapter.push ops t v) s

/-- Pops `n` times, reading `top` before each `pop`; stops early if either
call fails. -/
def drainStack {C : Type _} {α : Type _} (ops : SeqOps C α) :
    Nat → StackAdapter C → List α
  | 0, _ => []
  | n + 1, s =>
    match StackAdapter.top ops s, StackAdapter.pop ops s with
    | Except.ok v, Except.ok s' => v :: drainStack ops n s'
    | _, _ => []

/-! Helper lemmas about the buffer-manipulation primitives. -/

theorem copyTo_zero {α : Type _} (dst src : List α) :
    copyTo dst 0 src = src ++ dst.drop src.length := by
  simp [copyTo]

theorem length_copyTo {α : Type _} (dst src : List α) (offset : Nat)
    (h : offset + src.length ≤ dst.length) :
    (copyTo dst offset src).length = dst.length := by
  simp [copyTo]
  omega

theorem take_succ_set {α : Type _} (l : List α) (n : Nat) (v : α) (h : n < l.length) :
    (l.set n v).take (n + 1) = l.take n ++ [v] := by
  rw [List.set_eq_take_append_cons_drop, if_pos h, List.take_append_eq_append_take]
  rw [List.take_take, List.length_take]
  have h1 : min (n + 1) n = n := by omega
  have h2 : n + 1 - min n l.length = 1 := by omega
  rw [h1, h2]
  rfl

theorem eqlRange_iff {α : Type _} [DecidableEq α] (xs ys : List α) :
    eqlRange xs ys = true ↔ ys.take xs.length = xs := by
  induction xs generalizing ys with
  | nil => simp [eqlRange]
  | cons x xs ih =>
    cases ys with
    | nil => simp [eqlRange]
    | cons y ys =>
      simp [eqlRange, ih, List.take_succ_cons, eq_comm (a := y) (b := x)]

namespace ArrayList

variable {α : Type _}

theorem toList_mk (s c : Nat) (buf : List α) :
    ArrayList.toList { mSize := s, mCapacity := c, mArray := buf } = buf.take s := rfl

theorem toList_length (l : ArrayList α) (h : l.WF) : l.toList.length = l.mSize := by
  obtain ⟨h1, h2⟩ := h
  simp only [toList, List.length_take]
  omega

theorem ctor_toList [Inhabited α] (n : Nat) (v : α) :
    (ctor n v : ArrayList α).toList = List.replicate n v := by
  simp [ctor, toList, fillRange, copyTo, List.take_append_eq_append_take,
    List.take_replicate, List.drop_replicate]

theorem ctor_WF [Inhabited α] (n : Nat) (v : α) : (ctor n v : ArrayList α).WF := by
  constructor
  · simp [ctor]; omega
  · simp [ctor, fillRange, copyTo, List.take_replicate, List.drop_replicate]
    omega

theorem add_mSize [Inhabited α] (l : ArrayList α) (v : α) :
    (l.add v).mSize = l.mSize + 1 := by
  by_cases h : l.mSize ≥ l.mCapacity <;> simp [add, h]

theorem add_mCapacity [Inhabited α] (l : ArrayList α) (v : α) :
    (l.add v).mCapacity =
      if l.mSize ≥ l.mCapacity then 2 * l.mSize + 2 else l.mCapacity := by
  by_cases h : l.mSize ≥ l.mCapacity <;> simp [add, h]

theorem add_toList [Inhabited α] (l : ArrayList α) (v : α) (h : l.WF) :
    (l.add v).toList = l.toList ++ [v] := by
  have hlen : l.toList.length = l.mSize := toList_length l h
  by_cases hge : l.mSize ≥ l.mCapacity
  · have hbuf : copyTo (List.replicate (2 * l.mSize + 2) (default : α)) 0 l.toList
        = l.toList ++ List.replicate (l.mSize + 2) (default : α) := by
      rw [copyTo_zero, hlen, List.drop_replicate]
      have h2 : 2 * l.mSize + 2 - l.mSize = l.mSize + 2 := by omega
      rw [h2]
    have hset : (l.toList ++ List.replicate (l.mSize + 2) (default : α)).set l.mSize v
        = l.toList ++ (v :: List.replicate (l.mSize + 1) (default : α)) := by
      rw [List.set_append_right _ _ (le_of_eq hlen), hlen, Nat.sub_self]
      congr 1
    simp only [add, ge_iff_le] at *
    rw [if_pos hge]
    simp only [toList_mk]
    rw [hbuf, hset, List.take_append_eq_append_take,
      List.take_of_length_le (by omega : l.toList.length ≤ l.mSize + 1), hlen]
    have h1 : l.mSize + 1 - l.mSize = 1 := by omega
    rw [h1]
    simp
  · push_neg at hge
    have hlt : l.mSize < l.mArray.length := by rw [h.2]; exact hge
    simp only [add, ge_iff_le] at *
    rw [if_neg (by omega)]
    simp only [toList_mk]
    rw [take_succ_set _ _ _ hlt]
    rfl

theorem copyTo_at {β : Type _} (A R src : List β) :
    copyTo (A ++ R) A.length src = A ++ src ++ R.drop src.length := by
  unfold copyTo
  rw [List.take_left, List.drop_append]

theorem copyTo_at' {β : Type _} (dst src A R : List β) (off : Nat)
    (hdst : dst = A ++ R) (hoff : off = A.length) :
    copyTo dst off src = A ++ src ++ R.drop src.length := by
  subst hdst hoff
  exact copyTo_at A R src

theorem take_at' {β : Type _} (L A R : List β) (n m : Nat)
    (hL : L = A ++ R) (hn : n = A.length + m) : L.take n = A ++ R.take m := by
  subst hL hn
  exact List.take_append m

theorem set_at' {β : Type _} (L A R : List β) (x v : β) (i : Nat)
    (hL : L = A ++ x :: R) (hi : i = A.length) : L.set i v = A ++ v :: R := by
  subst hL hi
  rw [List.set_append_right _ _ le_rfl, Nat.sub_self, List.set_cons_zero]

theorem replicate_eq_cons {β : Type _} (k : Nat) (hk : 1 ≤ k) (d : β) :
    List.replicate k d = d :: List.replicate (k - 1) d := by
  cases k with
  | zero => omega
  | succ n => simp [List.replicate_succ]

theorem get_lt [Inhabited α] (l : ArrayList α) (i : Nat) (h : l.WF) (hi : i < l.mSize) :
    l.get i = Except.ok (l.toList.getD i default) := by
  have hle := h.1
  have hbuf := h.2
  have hlen : i < l.mArray.length := by omega
  have htake : l.toList.getD i default = l.mArray.getD i default := by
    rw [toList, List.getD_eq_getElem _ _ (by simp [List.length_take]; omega),
      List.getD_eq_getElem _ _ hlen, List.getElem_take]
  rw [htake]
  simp [get, rangeCheck, Nat.not_le.mpr hi]

theorem get_ge [Inhabited α] (l : ArrayList α) (i : Nat) (hi : i ≥ l.mSize) :
    l.get i = Except.error (CError.outOfRange i) := by
  simp [get, rangeCheck, hi]

theorem remove_spec [Inhabited α] (l : ArrayList α) (i : Nat) (h : l.WF) (hi : i < l.mSize) :
    ∃ a' : ArrayList α, l.remove i = Except.ok (l.toList.getD i default, a') ∧
      a'.mSize = l.mSize - 1 ∧ a'.mCapacity = l.mCapacity ∧
      a'.toList = l.toList.take i ++ l.toList.drop (i + 1) ∧ a'.WF := by
  have hle := h.1
  have hbuf := h.2
  have hlen : l.toList.length = l.mSize := toList_length l h
  have hlenbuf : i < l.mArray.length := by omega
  have hti : (l.toList.take i).length = i := by simp [List.length_take]; omega
  have hdlen : (l.toList.drop (i + 1)).length = l.mSize - (i + 1) := by
    simp [List.length_drop, hlen]
  have hval : l.toList.getD i default = l.mArray.getD i default := by
    rw [toList, List.getD_eq_getElem _ _ (by simp [List.length_take]; omega),
      List.getD_eq_getElem _ _ hlenbuf, List.getElem_take]
  simp only [hval]
  by_cases hlast : i < l.mSize - 1
  · have hinner : copyTo (List.replicate l.mCapacity (default : α)) 0 (l.toList.take i)
        = l.toList.take i ++ List.replicate (l.mCapacity - i) default := by
      rw [copyTo_zero, hti, List.drop_replicate]
    have houter : copyTo (copyTo (List.replicate l.mCapacity (default : α)) 0
          (l.toList.take i)) i (l.toList.drop (i + 1))
        = l.toList.take i ++ l.toList.drop (i + 1) ++
            List.replicate (l.mCapacity - i - (l.mSize - (i + 1))) default := by
      rw [copyTo_at' _ _ (l.toList.take i) (List.replicate (l.mCapacity - i) default) i
        hinner hti.symm, hdlen, List.drop_replicate]
    refine ⟨{ l with
      mArray := copyTo (copyTo (List.replicate l.mCapacity default) 0
        (l.toList.take i)) i (l.toList.drop (i + 1)), mSize := l.mSize - 1 }, ?_, rfl, rfl, ?_, ?_⟩
    · simp [remove, rangeCheck, Nat.not_le.mpr hi, hlast, hval]
    · rw [toList_mk]
      rw [take_at' _ (l.toList.take i ++ l.toList.drop (i + 1))
        (List.replicate (l.mCapacity - i - (l.mSize - (i + 1))) default) _ 0
        (by rw [houter]) (by simp [hti, hdlen]; omega)]
      simp
    · constructor
      · simp; omega
      · simp only [houter, List.length_append, List.length_replicate, hti, hdlen, h.2]
        omega
  · have hieq : i = l.mSize - 1 := by omega
    refine ⟨{ l with mSize := l.mSize - 1 }, ?_, rfl, rfl, ?_, ?_⟩
    · simp [remove, rangeCheck, Nat.not_le.mpr hi, hlast, hval]
    · rw [toList_mk, List.drop_eq_nil_of_le (by omega), List.append_nil, toList,
        List.take_take]
      congr 1
      omega
    · constructor
      · show l.mSize - 1 ≤ l.mCapacity
        omega
      · show l.mArray.length = l.mCapacity
        exact hbuf

theorem addAt_mSize [Inhabited α] (l : ArrayList α) (i : Nat) (v : α) :
    (l.addAt i v).mSize = max i l.mSize + 1 := by
  by_cases hlt : i < l.mSize <;> simp [addAt, hlt]

theorem addAt_mCapacity [Inhabited α] (l : ArrayList α) (i : Nat) (v : α) :
    (l.addAt i v).mCapacity = 2 * (max i l.mSize + 1) := by
  by_cases hlt : i < l.mSize <;> simp [addAt, hlt]

theorem addAt_toList [Inhabited α] (l : ArrayList α) (i : Nat) (v : α) (h : l.WF) :
    (l.addAt i v).toList =
      if i < l.mSize then l.toList.take i ++ v :: l.toList.drop i
      else l.toList ++ List.replicate (i - l.mSize) default ++ [v] := by
  have hlen : l.toList.length = l.mSize := toList_length l h
  by_cases hlt : i < l.mSize
  · have hmax : max i l.mSize = l.mSize := by omega
    have hti : (l.toList.take i).length = i := by simp [List.length_take]; omega
    have hdlen : (l.toList.drop i).length = l.mSize - i := by
      simp [List.length_drop, hlen]
    have htemp1 : copyTo (List.replicate (2 * (max i l.mSize + 1)) (default : α)) 0 (l.toList.take i)
        = l.toList.take i ++ List.replicate (2 * l.mSize + 2 - i) default := by
      rw [copyTo_zero, hti, List.drop_replicate, hmax]
      congr 2
    have htemp2 : copyTo (copyTo (List.replicate (2 * (max i l.mSize + 1)) (default : α)) 0
          (l.toList.take i)) (i + 1) (l.toList.drop i)
        = (l.toList.take i ++ [default]) ++ l.toList.drop i ++
            List.replicate (2 * l.mSize + 1 - i - (l.mSize - i)) default := by
      rw [copyTo_at' _ _ (l.toList.take i ++ [default])
        (List.replicate (2 * l.mSize + 1 - i) default) (i + 1)
        (by rw [htemp1, replicate_eq_cons _ (by omega)]
            simp only [List.append_assoc, List.singleton_append]
            congr 3
            omega)
        (by simp [hti]), hdlen, List.drop_replicate]
    have hset : ((l.toList.take i ++ [default]) ++ l.toList.drop i ++
          List.replicate (2 * l.mSize + 1 - i - (l.mSize - i)) default).set i v
        = l.toList.take i ++ v :: (l.toList.drop i ++
            List.replicate (2 * l.mSize + 1 - i - (l.mSize - i)) default) := by
      exact set_at' _ (l.toList.take i) _ default v i (by simp) hti.symm
    simp only [addAt, hlt, if_true, toList_mk, htemp2, hset]
    rw [take_at' _ (l.toList.take i ++ v :: l.toList.drop i)
      (List.replicate (2 * l.mSize + 1 - i - (l.mSize - i)) default) _ 0
      (by simp) (by simp [hti, hdlen]; omega)]
    simp
  · have hmax : max i l.mSize = i := by omega
    have htake_all : l.toList.take i = l.toList :=
      List.take_of_length_le (by omega)
    have htemp1 : copyTo (List.replicate (2 * (max i l.mSize + 1)) (default : α)) 0 (l.toList.take i)
        = l.toList ++ List.replicate (2 * i + 2 - l.mSize) default := by
      rw [copyTo_zero, htake_all, hlen, List.drop_replicate, hmax]
      congr 2
    have hrep : (List.replicate (2 * i + 2 - l.mSize) (default : α)).drop
          (List.replicate (i - l.mSize) (default : α)).length
        = List.replicate (i + 2) default := by
      rw [List.length_replicate, List.drop_replicate]
      congr 1
      omega
    have htemp2 : fillRange (copyTo (List.replicate (2 * (max i l.mSize + 1)) (default : α)) 0
          (l.toList.take i)) l.mSize i default
        = (l.toList ++ List.replicate (i - l.mSize) default) ++
            List.replicate (i + 2) default := by
      simp only [fillRange]
      rw [copyTo_at' _ _ l.toList (List.replicate (2 * i + 2 - l.mSize) default) l.mSize
        htemp1 hlen.symm, hrep]
    have h21 : i + 2 - 1 = i + 1 := by omega
    have hset : ((l.toList ++ List.replicate (i - l.mSize) default) ++
          List.replicate (i + 2) (default : α)).set i v
        = (l.toList ++ List.replicate (i - l.mSize) default) ++
            v :: List.replicate (i + 1) default := by
      refine set_at' _ (l.toList ++ List.replicate (i - l.mSize) default) _ default v i ?_ ?_
      · rw [replicate_eq_cons (i + 2) (by omega), h21]
      · simp [hlen]
        omega
    simp only [addAt, hlt, if_false, toList_mk, htemp2, hset]
    rw [take_at' _ (l.toList ++ List.replicate (i - l.mSize) default ++ [v])
      (List.replicate (i + 1) default) _ 0
      (by simp) (by simp [hlen]; omega)]
    simp

theorem addAt_WF [Inhabited α] (l : ArrayList α) (i : Nat) (v : α) (h : l.WF) :
    (l.addAt i v).WF := by
  have hlen : l.toList.length = l.mSize := toList_length l h
  have hlen1 : (copyTo (List.replicate (2 * (max i l.mSize + 1)) (default : α)) 0
      (l.toList.take i)).length = 2 * (max i l.mSize + 1) := by
    rw [length_copyTo _ _ _ (by simp [List.length_take, List.length_replicate, hlen]; omega),
      List.length_replicate]
  constructor
  · rw [addAt_mSize, addAt_mCapacity]
    omega
  · rw [addAt_mCapacity]
    by_cases hlt : i < l.mSize
    · simp only [addAt, hlt, if_true, List.length_set]
      rw [length_copyTo _ _ _ (by rw [hlen1]; simp [List.length_drop, hlen]; omega), hlen1]
    · simp only [addAt, hlt, if_false, List.length_set, fillRange]
      rw [length_copyTo _ _ _ (by rw [hlen1]; simp [List.length_replicate]; omega), hlen1]

theorem add_WF [Inhabited α] (l : ArrayList α) (v : α) (h : l.WF) : (l.add v).WF := by
  by_cases hge : l.mSize ≥ l.mCapacity
  · constructor
    · simp [add, hge]; omega
    · simp only [add, hge, if_pos, ge_iff_le, le_refl]
      simp only [List.length_set]
      rw [length_copyTo]
      · simp [add]
      · simp [toList_length l h]
        omega
  · constructor
    · simp [add, hge]; omega
    · simp [add, hge, h.2]

theorem clear_eq [Inhabited α] (l : ArrayList α) : l.clear = ctor 0 default := rfl

theorem copyCtor_toList [Inhabited α] (src : ArrayList α) (h : src.WF) :
    (copyCtor src).toList = src.toList := by
  have hlen := toList_length src h
  simp only [copyCtor, toList_mk]
  rw [copyTo_zero, hlen, List.drop_replicate, Nat.sub_self, List.replicate_zero,
    List.append_nil, List.take_of_length_le (by omega)]

theorem copyCtor_WF [Inhabited α] (src : ArrayList α) : (copyCtor src).WF := by
  constructor
  · exact le_rfl
  · show (copyTo (List.replicate src.mSize default) 0 src.toList).length = src.mSize
    rw [copyTo_zero]
    simp only [List.length_append, List.length_drop, List.length_replicate, toList,
      List.length_take]
    omega

theorem eqlRange_self {β : Type _} [DecidableEq β] (xs : List β) :
    eqlRange xs xs = true := by
  rw [eqlRange_iff]
  exact List.take_length xs

theorem beq_copyCtor [DecidableEq α] [Inhabited α] (src : ArrayList α) (h : src.WF) :
    beq (copyCtor src) src = true := by
  have h1 : (copyCtor src).mSize = src.mSize := rfl
  simp only [beq, h1, copyCtor_toList src h, Bool.and_eq_true, beq_iff_eq, beq_self_eq_true]
  refine ⟨trivial, ?_⟩
  rw [eqlRange_iff, toList_length src h]
  rfl

end ArrayList

namespace LinkedList

variable {α : Type _}

theorem linkedAdd_WF (l : LinkedList α) (v : α) (h : l.WF) : (l.add v).WF := by
  simp [WF, add] at *
  omega

theorem linkedGet_lt [Inhabited α] (l : LinkedList α) (i : Nat) (hi : i < l.mSize) :
    l.get i = Except.ok (l.chain.getD i default) := by
  simp [get, rangeCheck, Nat.not_le.mpr hi]

theorem linkedGet_ge [Inhabited α] (l : LinkedList α) (i : Nat) (hi : i ≥ l.mSize) :
    l.get i = Except.error (CError.outOfRange i) := by
  simp [get, rangeCheck, hi]

theorem remove_lt (l : LinkedList α) (i : Nat) (hi : i < l.mSize) :
    l.remove i = Except.ok { mSize := l.mSize - 1, chain := l.chain.eraseIdx i } := by
  simp [remove, rangeCheck, Nat.not_le.mpr hi]

theorem remove_WF (l : LinkedList α) (i : Nat) (h : l.WF) (hi : i < l.mSize) :
    WF { mSize := l.mSize - 1, chain := l.chain.eraseIdx i } := by
  simp only [WF] at *
  rw [List.length_eraseIdx]
  simp [h, hi]

theorem linkedCopyCtor_WF (l : LinkedList α) : (copyCtor l).WF := rfl

theorem linkedBeq_copyCtor [DecidableEq α] (src : LinkedList α) (h : src.WF) :
    beq (copyCtor src) src = true := by
  simp only [beq, copyCtor, Bool.and_eq_true, beq_iff_eq]
  exact ⟨h, ArrayList.eqlRange_self src.chain⟩

theorem linkedClear_eq (l : LinkedList α) : l.clear = ctor := rfl

end LinkedList

theorem reverse_eq_getD_cons {β : Type _} [Inhabited β] (ys : List β) (n : Nat)
    (h : ys.length = n + 1) :
    ys.reverse = ys.getD n default :: (ys.take n).reverse := by
  have hy : ys.take n ++ [ys.getD n default] = ys := by
    rw [List.getD_eq_getElem _ _ (by omega), ← List.concat_eq_append,
      List.take_concat_get _ _ (by omega)]
    exact List.take_of_length_le (by omega)
  conv_lhs => rw [← hy]
  rw [List.reverse_append]
  rfl

theorem drain_array {α : Type _} [Inhabited α] :
    ∀ (n : Nat) (a : ArrayList α), a.WF → a.mSize = n →
      drainStack (arrayOps α) n ⟨a⟩ = a.toList.reverse := by
  intro n
  induction n with
  | zero =>
    intro a h hn
    have hnil : a.toList = [] :=
      List.eq_nil_of_length_eq_zero (by rw [ArrayList.toList_length a h, hn])
    simp [drainStack, hnil]
  | succ n ih =>
    intro a h hn
    have hlt : n < a.mSize := by omega
    have hidx : a.mSize - 1 = n := by omega
    obtain ⟨a', hrem, hsz, hcap, hlist, hwf⟩ := ArrayList.remove_spec a n h hlt
    have htop : StackAdapter.top (arrayOps α) ⟨a⟩
        = Except.ok (a.toList.getD n default) := by
      simp only [StackAdapter.top, arrayOps]
      rw [if_neg (by simp [ArrayList.size]; omega)]
      simp only [ArrayList.size]
      rw [hidx]
      exact ArrayList.get_lt a n h hlt
    have hpop : StackAdapter.pop (arrayOps α) ⟨a⟩ = Except.ok ⟨a'⟩ := by
      simp only [StackAdapter.pop, arrayOps]
      rw [if_neg (by simp [ArrayList.size]; omega)]
      simp only [ArrayList.size]
      rw [hidx, hrem]
      rfl
    have hlist' : a'.toList = a.toList.take n := by
      rw [hlist, List.drop_eq_nil_of_le (by rw [ArrayList.toList_length a h]; omega),
        List.append_nil]
    have hstep : drainStack (arrayOps α) (n + 1) ⟨a⟩
        = a.toList.getD n default :: drainStack (arrayOps α) n ⟨a'⟩ := by
      simp [drainStack, htop, hpop]
    rw [hstep, ih a' hwf (by omega), hlist',
      reverse_eq_getD_cons a.toList n (by rw [ArrayList.toList_length a h, hn])]

theorem pushAll_array {α : Type _} [Inhabited α] (vs : List α) :
    ∀ (a : ArrayList α), a.WF →
      ∃ b : ArrayList α, pushAll (arrayOps α) ⟨a⟩ vs = ⟨b⟩ ∧ b.WF ∧
        b.toList = a.toList ++ vs ∧ b.mSize = a.mSize + vs.length := by
  induction vs with
  | nil => exact fun a h => ⟨a, rfl, h, by simp, by simp⟩
  | cons v vs ih =>
    intro a h
    obtain ⟨b, hb, hwf, hlist, hsz⟩ := ih (a.add v) (ArrayList.add_WF a v h)
    refine ⟨b, ?_, hwf, ?_, ?_⟩
    · simpa [pushAll, StackAdapter.push, arrayOps] using hb
    · rw [hlist, ArrayList.add_toList a v h]
      simp
    · rw [hsz, ArrayList.add_mSize]
      simp
      omega

theorem drain_linked {α : Type _} [Inhabited α] :
    ∀ (n : Nat) (l : LinkedList α), l.WF → l.mSize = n →
      drainStack (linkedOps α) n ⟨l⟩ = l.chain.reverse := by
  intro n
  induction n with
  | zero =>
    intro l h hn
    have hnil : l.chain = [] := List.eq_nil_of_length_eq_zero (by rw [h, hn])
    simp [drainStack, hnil]
  | succ n ih =>
    intro l h hn
    have hlt : n < l.mSize := by omega
    have hidx : l.mSize - 1 = n := by omega
    have herase : l.chain.eraseIdx n = l.chain.take n := by
      rw [List.eraseIdx_eq_take_drop_succ,
        List.drop_eq_nil_of_le (by rw [h]; omega), List.append_nil]
    have htop : StackAdapter.top (linkedOps α) ⟨l⟩
        = Except.ok (l.chain.getD n default) := by
      simp only [StackAdapter.top, linkedOps]
      rw [if_neg (by simp [LinkedList.size]; omega)]
      simp only [LinkedList.size]
      rw [hidx]
      exact LinkedList.linkedGet_lt l n hlt
    have hpop : StackAdapter.pop (linkedOps α) ⟨l⟩
        = Except.ok ⟨{ mSize := l.mSize - 1, chain := l.chain.eraseIdx n }⟩ := by
      simp only [StackAdapter.pop, linkedOps]
      rw [if_neg (by simp [LinkedList.size]; omega)]
      simp only [LinkedList.size]
      rw [hidx, LinkedList.remove_lt l n hlt]
      simp [Except.map, hidx]
    have hstep : drainStack (linkedOps α) (n + 1) ⟨l⟩
        = l.chain.getD n default ::
            drainStack (linkedOps α) n ⟨{ mSize := l.mSize - 1, chain := l.chain.eraseIdx n }⟩ := by
      simp [drainStack, htop, hpop]
    rw [hstep, ih _ (LinkedList.remove_WF l n h hlt) (by simpa using hidx), herase,
      reverse_eq_getD_cons l.chain n (by rw [h, hn])]

theorem pushAll_linked {α : Type _} [Inhabited α] (vs : List α) :
    ∀ (l : LinkedList α), l.WF →
      ∃ m : LinkedList α, pushAll (linkedOps α) ⟨l⟩ vs = ⟨m⟩ ∧ m.WF ∧
        m.chain = l.chain ++ vs ∧ m.mSize = l.mSize + vs.length := by
  induction vs with
  | nil => exact fun l h => ⟨l, rfl, h, by simp, by simp⟩
  | cons v vs ih =>
    intro l h
    obtain ⟨m, hm, hwf, hchain, hsz⟩ := ih (l.add v) (LinkedList.linkedAdd_WF l v h)
    refine ⟨m, ?_, hwf, ?_, ?_⟩
    · simpa [pushAll, StackAdapter.push, linkedOps] using hm
    · rw [hchain]
      simp [LinkedList.add]
    · rw [hsz]
      simp [LinkedList.add]
      omega

/-- C1: for every sequence (growable-array or linked) and every index at or
beyond size(), each of get, set and remove raises OutOfRange carrying the
offending index, and the observed container afterwards (`runOr`) has exactly
the size and contents it had before the call. -/
theorem claim_C1 {α : Type} [Inhabited α] (a : ArrayList α) (l : LinkedList α)
    (i j : Nat) (v w : α) (ha : i ≥ a.size) (hl : j ≥ l.size) :
    a.get i = Except.error (CError.outOfRange i) ∧
    a.set i v = Except.error (CError.outOfRange i) ∧
    a.remove i = Except.error (CError.outOfRange i) ∧
    runOr a (a.set i v) = a ∧
    runOr a ((a.remove i).map Prod.snd) = a ∧
    l.get j = Except.error (CError.outOfRange j) ∧
    l.set j w = Except.error (CError.outOfRange j) ∧
    l.remove j = Except.error (CError.outOfRange j) ∧
    runOr l (l.set j w) = l ∧
    runOr l (l.remove j) = l := by
  simp only [ArrayList.size] at ha
  simp only [LinkedList.size] at hl
  refine ⟨?_, ?_, ?_, ?_, ?_, ?_, ?_, ?_, ?_, ?_⟩ <;>
    simp [ArrayList.get, ArrayList.set, ArrayList.remove, ArrayList.rangeCheck,
      LinkedList.get, LinkedList.set, LinkedList.remove, LinkedList.rangeCheck,
      runOr, Except.map, ha, hl]

/-- C1 witness: concrete out-of-range calls on a 1-element array sequence and
an empty linked sequence. -/
theorem claim_C1_witness :
    2 ≥ (ArrayList.ctor 1 (5 : Nat)).size ∧
    3 ≥ (LinkedList.ctor (α := Nat)).size ∧
    ((ArrayList.ctor 1 (5 : Nat)).get 2 = Except.error (CError.outOfRange 2) ∧
     (ArrayList.ctor 1 (5 : Nat)).set 2 7 = Except.error (CError.outOfRange 2) ∧
     (ArrayList.ctor 1 (5 : Nat)).remove 2 = Except.error (CError.outOfRange 2) ∧
     runOr (ArrayList.ctor 1 (5 : Nat)) ((ArrayList.ctor 1 (5 : Nat)).set 2 7)
       = ArrayList.ctor 1 (5 : Nat) ∧
     runOr (ArrayList.ctor 1 (5 : Nat))
       (((ArrayList.ctor 1 (5 : Nat)).remove 2).map Prod.snd) = ArrayList.ctor 1 (5 : Nat) ∧
     (LinkedList.ctor (α := Nat)).get 3 = Except.error (CError.outOfRange 3) ∧
     (LinkedList.ctor (α := Nat)).set 3 9 = Except.error (CError.outOfRange 3) ∧
     (LinkedList.ctor (α := Nat)).remove 3 = Except.error (CError.outOfRange 3) ∧
     runOr (LinkedList.ctor (α := Nat)) ((LinkedList.ctor (α := Nat)).set 3 9)
       = LinkedList.ctor (α := Nat) ∧
     runOr (LinkedList.ctor (α := Nat)) ((LinkedList.ctor (α := Nat)).remove 3)
       = LinkedList.ctor (α := Nat)) :=
  ⟨by decide, by decide,
    claim_C1 (ArrayList.ctor 1 5) LinkedList.ctor 2 3 7 9 (by decide) (by decide)⟩

/-- C2: remove(i) at a valid index of a non-empty sequence decreases the size
to n-1, removes exactly the element previously at i (the array form returns a
copy of it), keeps elements before i and shifts elements after i down by one
(contents become take i ++ drop (i+1)); the linked sequence [1,2,3] after
remove(1) is [1,3] with size 2. -/
theorem claim_C2 {α : Type} [Inhabited α] (a : ArrayList α) (ha : a.WF) (i : Nat)
    (hi : i < a.size) (l : LinkedList α) (hl : l.WF) (j : Nat) (hj : j < l.size) :
    (∃ a' : ArrayList α, a.remove i = Except.ok (a.toList.getD i default, a') ∧
      a'.size = a.size - 1 ∧
      a'.toList = a.toList.take i ++ a.toList.drop (i + 1)) ∧
    (∃ l' : LinkedList α, l.remove j = Except.ok l' ∧ l'.size = l.size - 1 ∧
      l'.chain = l.chain.take j ++ l.chain.drop (j + 1)) ∧
    ((((LinkedList.ctor.add 1).add 2).add 3).remove 1
      = Except.ok { mSize := 2, chain := [1, 3] }) := by
  simp only [ArrayList.size] at hi
  simp only [LinkedList.size] at hj
  refine ⟨?_, ?_, ?_⟩
  · obtain ⟨a', hrem, hsz, hcap, hlist, hwf⟩ := ArrayList.remove_spec a i ha hi
    exact ⟨a', hrem, hsz, hlist⟩
  · refine ⟨{ mSize := l.mSize - 1, chain := l.chain.eraseIdx j },
      LinkedList.remove_lt l j hj, rfl, ?_⟩
    exact List.eraseIdx_eq_take_drop_succ l.chain j
  · rfl

/-- C2 witness: removing index 1 from the array sequence [5,5,5] and index 0
from the linked sequence [1,2,3]. -/
theorem claim_C2_witness :
    (ArrayList.ctor 3 (5 : Nat)).WF ∧
    1 < (ArrayList.ctor 3 (5 : Nat)).size ∧
    (((LinkedList.ctor.add 1).add 2).add 3).WF ∧
    0 < (((LinkedList.ctor.add 1).add 2).add 3 : LinkedList Nat).size ∧
    ((∃ a' : ArrayList Nat, (ArrayList.ctor 3 (5 : Nat)).remove 1
        = Except.ok ((ArrayList.ctor 3 (5 : Nat)).toList.getD 1 default, a') ∧
      a'.size = (ArrayList.ctor 3 (5 : Nat)).size - 1 ∧
      a'.toList = (ArrayList.ctor 3 (5 : Nat)).toList.take 1 ++
        (ArrayList.ctor 3 (5 : Nat)).toList.drop 2) ∧
     (∃ l' : LinkedList Nat, (((LinkedList.ctor.add 1).add 2).add 3).remove 0
        = Except.ok l' ∧
      l'.size = (((LinkedList.ctor.add 1).add 2).add 3 : LinkedList Nat).size - 1 ∧
      l'.chain = (((LinkedList.ctor.add 1).add 2).add 3 : LinkedList Nat).chain.take 0 ++
        (((LinkedList.ctor.add 1).add 2).add 3 : LinkedList Nat).chain.drop 1) ∧
     ((((LinkedList.ctor.add 1).add 2).add 3).remove 1
        = Except.ok { mSize := 2, chain := [1, 3] })) :=
  ⟨by decide, by decide, by decide, by decide,
    claim_C2 (ArrayList.ctor 3 5) (by decide) 1 (by decide)
      (((LinkedList.ctor.add 1).add 2).add 3) (by decide) 0 (by decide)⟩

/-- C3: appending to a full array sequence (size = capacity) allocates a
buffer of exactly 2*size+2 slots, so the new capacity is 2*oldSize+2, the
original elements are preserved in order with the new value appended; for
size 4 the new capacity is at least 10. -/
theorem claim_C3 {α : Type} [Inhabited α] (a : ArrayList α) (ha : a.WF)
    (hfull : a.size = a.mCapacity) (v : α) :
    (a.add v).mCapacity = 2 * a.size + 2 ∧
    (a.add v).size = a.size + 1 ∧
    (a.add v).toList = a.toList ++ [v] ∧
    (a.size = 4 → 10 ≤ (a.add v).mCapacity) := by
  simp only [ArrayList.size] at *
  have hge : a.mSize ≥ a.mCapacity := le_of_eq hfull.symm
  refine ⟨?_, ?_, ArrayList.add_toList a v ha, ?_⟩
  · rw [ArrayList.add_mCapacity, if_pos hge]
  · rw [ArrayList.add_mSize]
  · intro h4
    rw [ArrayList.add_mCapacity, if_pos hge, h4]

/-- C3 witness: a full array sequence of size 4 and capacity 4. -/
theorem claim_C3_witness :
    ({ mSize := 4, mCapacity := 4, mArray := [1, 2, 3, 4] } : ArrayList Nat).WF ∧
    ({ mSize := 4, mCapacity := 4, mArray := [1, 2, 3, 4] } : ArrayList Nat).size
      = ({ mSize := 4, mCapacity := 4, mArray := [1, 2, 3, 4] } : ArrayList Nat).mCapacity ∧
    ((({ mSize := 4, mCapacity := 4, mArray := [1, 2, 3, 4] } : ArrayList Nat).add 5).mCapacity
      = 2 * ({ mSize := 4, mCapacity := 4, mArray := [1, 2, 3, 4] } : ArrayList Nat).size + 2 ∧
     (({ mSize := 4, mCapacity := 4, mArray := [1, 2, 3, 4] } : ArrayList Nat).add 5).size
      = ({ mSize := 4, mCapacity := 4, mArray := [1, 2, 3, 4] } : ArrayList Nat).size + 1 ∧
     (({ mSize := 4, mCapacity := 4, mArray := [1, 2, 3, 4] } : ArrayList Nat).add 5).toList
      = ({ mSize := 4, mCapacity := 4, mArray := [1, 2, 3, 4] } : ArrayList Nat).toList ++ [5] ∧
     (({ mSize := 4, mCapacity := 4, mArray := [1, 2, 3, 4] } : ArrayList Nat).size = 4 →
       10 ≤ (({ mSize := 4, mCapacity := 4, mArray := [1, 2, 3, 4] } : ArrayList Nat).add 5).mCapacity)) :=
  ⟨by decide, by decide,
    claim_C3 { mSize := 4, mCapacity := 4, mArray := [1, 2, 3, 4] } (by decide) (by decide) 5⟩

/-- C4: positional insert on the array sequence yields size max(index,size)+1
and capacity twice that; contents keep [0, min(index,size)), shift [index,
size) right by one when index < size, fill [size, index) with defaults when
index >= size, and put value at index; inserting 5 at 0 in an empty array
sequence gives size 1 with get(0) = 5. -/
theorem claim_C4 {α : Type} [Inhabited α] (a : ArrayList α) (ha : a.WF)
    (index : Nat) (v : α) :
    (a.addAt index v).size = max index a.size + 1 ∧
    (a.addAt index v).mCapacity = 2 * (max index a.size + 1) ∧
    (a.addAt index v).toList =
      (if index < a.size then a.toList.take index ++ v :: a.toList.drop index
       else a.toList ++ List.replicate (index - a.size) default ++ [v]) ∧
    ((ArrayList.ctor 0 (0 : Nat)).addAt 0 5).size = 1 ∧
    ((ArrayList.ctor 0 (0 : Nat)).addAt 0 5).get 0 = Except.ok 5 := by
  simp only [ArrayList.size]
  exact ⟨ArrayList.addAt_mSize a index v, ArrayList.addAt_mCapacity a index v,
    ArrayList.addAt_toList a index v ha, rfl, rfl⟩

/-- C4 witness: inserting past the end of the array sequence [7,7]. -/
theorem claim_C4_witness :
    (ArrayList.ctor 2 (7 : Nat)).WF ∧
    (((ArrayList.ctor 2 (7 : Nat)).addAt 5 9).size
        = max 5 (ArrayList.ctor 2 (7 : Nat)).size + 1 ∧
     ((ArrayList.ctor 2 (7 : Nat)).addAt 5 9).mCapacity
        = 2 * (max 5 (ArrayList.ctor 2 (7 : Nat)).size + 1) ∧
     ((ArrayList.ctor 2 (7 : Nat)).addAt 5 9).toList =
       (if 5 < (ArrayList.ctor 2 (7 : Nat)).size then
          (ArrayList.ctor 2 (7 : Nat)).toList.take 5 ++
            9 :: (ArrayList.ctor 2 (7 : Nat)).toList.drop 5
        else (ArrayList.ctor 2 (7 : Nat)).toList ++
          List.replicate (5 - (ArrayList.ctor 2 (7 : Nat)).size) default ++ [9]) ∧
     ((ArrayList.ctor 0 (0 : Nat)).addAt 0 5).size = 1 ∧
     ((ArrayList.ctor 0 (0 : Nat)).addAt 0 5).get 0 = Except.ok 5) :=
  ⟨by decide, claim_C4 (ArrayList.ctor 2 7) (by decide) 5 9⟩

/-- C5: linked-sequence insert at an index at or past the size appends
index - size default-valued elements and then value, so the size becomes
index + 1, the first old-size elements are unchanged, positions
[old size, index) read back as defaults, and get(index) = value. -/
theorem claim_C5 {α : Type} [Inhabited α] (l : LinkedList α) (hl : l.WF)
    (index : Nat) (h : index ≥ l.size) (v : α) :
    (l.addAt index v).size = index + 1 ∧
    (l.addAt index v).chain
      = l.chain ++ (List.replicate (index - l.size) default ++ [v]) ∧
    (l.addAt index v).get index = Except.ok v ∧
    (∀ k, k < l.size → (l.addAt index v).get k = l.get k) ∧
    (∀ k, l.size ≤ k → k < index → (l.addAt index v).get k = Except.ok default) := by
  simp only [LinkedList.size] at *
  have h1 : l.chain.length = l.mSize := hl
  have hnlt : ¬ index < l.mSize := by omega
  have hsize : (l.addAt index v).mSize = index + 1 := by
    simp [LinkedList.addAt, hnlt]
  have hchain : (l.addAt index v).chain
      = l.chain ++ (List.replicate (index - l.mSize) default ++ [v]) := by
    simp [LinkedList.addAt, hnlt]
  refine ⟨hsize, hchain, ?_, ?_, ?_⟩
  · rw [LinkedList.linkedGet_lt _ index (by rw [hsize]; omega), hchain,
      List.getD_append_right _ _ _ _ (by rw [h1]; omega),
      List.getD_append_right _ _ _ _ (by simp [List.length_replicate]; omega)]
    simp [List.length_replicate, h1]
  · intro k hk
    rw [LinkedList.linkedGet_lt _ k (by rw [hsize]; omega), LinkedList.linkedGet_lt _ k hk, hchain,
      List.getD_append _ _ _ _ (by rw [h1]; omega)]
  · intro k hk1 hk2
    rw [LinkedList.linkedGet_lt _ k (by rw [hsize]; omega), hchain,
      List.getD_append_right _ _ _ _ (by rw [h1]; omega),
      List.getD_append _ _ _ _ (by simp [List.length_replicate, h1]; omega),
      List.getD_eq_getElem _ _ (by simp [List.length_replicate, h1]; omega),
      List.getElem_replicate]

/-- C5 witness: inserting 7 at index 4 of the linked sequence [1,2]. -/
theorem claim_C5_witness :
    ((LinkedList.ctor.add 1).add 2 : LinkedList Nat).WF ∧
    4 ≥ ((LinkedList.ctor.add 1).add 2 : LinkedList Nat).size ∧
    ((((LinkedList.ctor.add 1).add 2).addAt 4 7).size = 4 + 1 ∧
     (((LinkedList.ctor.add 1).add 2).addAt 4 7).chain
       = ((LinkedList.ctor.add 1).add 2 : LinkedList Nat).chain ++
           (List.replicate (4 - ((LinkedList.ctor.add 1).add 2 : LinkedList Nat).size)
             default ++ [7]) ∧
     (((LinkedList.ctor.add 1).add 2).addAt 4 7).get 4 = Except.ok 7 ∧
     (∀ k, k < ((LinkedList.ctor.add 1).add 2 : LinkedList Nat).size →
       (((LinkedList.ctor.add 1).add 2).addAt 4 7).get k
         = ((LinkedList.ctor.add 1).add 2 : LinkedList Nat).get k) ∧
     (∀ k, ((LinkedList.ctor.add 1).add 2 : LinkedList Nat).size ≤ k → k < 4 →
       (((LinkedList.ctor.add 1).add 2).addAt 4 7).get k = Except.ok default)) :=
  ⟨by decide, by decide,
    claim_C5 ((LinkedList.ctor.add 1).add 2) (by decide) 4 (by decide) 7⟩

/-- C6: on an empty adapter each of pop, top, dequeue and front raises
Underflow, a condition the adapter checks itself before touching the wrapped
sequence (the statement holds for every container satisfying the structural
contract) and distinct from OutOfRange; pushing v1..vn onto a fresh stack and
then popping n times yields vn..v1, for stacks over both sequence types. -/
theorem claim_C6 {α : Type} [Inhabited α] {C D : Type} (ops : SeqOps C α)
    (qops : SeqOps D α) (s : StackAdapter C) (q : QueueAdapter D)
    (hs : ops.size s.mContainer = 0) (hq : qops.size q.mContainer = 0)
    (i : Nat) (vs ws : List α) :
    StackAdapter.pop ops s = Except.error CError.underflow ∧
    StackAdapter.top ops s = Except.error CError.underflow ∧
    QueueAdapter.dequeue qops q = Except.error CError.underflow ∧
    QueueAdapter.front qops q = Except.error CError.underflow ∧
    CError.underflow ≠ CError.outOfRange i ∧
    drainStack (arrayOps α) vs.length
      (pushAll (arrayOps α) ⟨ArrayList.ctor 0 default⟩ vs) = vs.reverse ∧
    drainStack (linkedOps α) ws.length
      (pushAll (linkedOps α) ⟨LinkedList.ctor⟩ ws) = ws.reverse := by
  refine ⟨?_, ?_, ?_, ?_, by simp, ?_, ?_⟩
  · simp [StackAdapter.pop, hs]
  · simp [StackAdapter.top, hs]
  · simp [QueueAdapter.dequeue, hq]
  · simp [QueueAdapter.front, hq]
  · obtain ⟨b, hb, hwf, hlist, hsz⟩ :=
      pushAll_array vs (ArrayList.ctor 0 default) (ArrayList.ctor_WF 0 default)
    have hvs : b.toList = vs := by
      rw [hlist, ArrayList.ctor_toList]
      simp
    have hms : b.mSize = vs.length := by
      rw [hsz]
      simp [ArrayList.ctor]
    rw [hb, drain_array vs.length b hwf hms, hvs]
  · obtain ⟨m, hm, hwf, hchain, hsz⟩ :=
      pushAll_linked ws LinkedList.ctor rfl
    have hws : m.chain = ws := by
      rw [hchain]
      simp [LinkedList.ctor]
    have hms : m.mSize = ws.length := by
      rw [hsz]
      simp [LinkedList.ctor]
    rw [hm, drain_linked ws.length m hwf hms, hws]

/-- C6 witness: an empty array-backed stack, an empty linked-backed queue,
and the push/pop round trips for [1,2,3] and [4,5]. -/
theorem claim_C6_witness :
    (arrayOps Nat).size (StackAdapter.mk (ArrayList.ctor 0 0)).mContainer = 0 ∧
    (linkedOps Nat).size (QueueAdapter.mk LinkedList.ctor).mContainer = 0 ∧
    (StackAdapter.pop (arrayOps Nat) (StackAdapter.mk (ArrayList.ctor 0 0))
        = Except.error CError.underflow ∧
     StackAdapter.top (arrayOps Nat) (StackAdapter.mk (ArrayList.ctor 0 0))
        = Except.error CError.underflow ∧
     QueueAdapter.dequeue (linkedOps Nat) (QueueAdapter.mk LinkedList.ctor)
        = Except.error CError.underflow ∧
     QueueAdapter.front (linkedOps Nat) (QueueAdapter.mk LinkedList.ctor)
        = Except.error CError.underflow ∧
     CError.underflow ≠ CError.outOfRange 0 ∧
     drainStack (arrayOps Nat) ([1, 2, 3] : List Nat).length
       (pushAll (arrayOps Nat) ⟨ArrayList.ctor 0 default⟩ [1, 2, 3])
         = ([1, 2, 3] : List Nat).reverse ∧
     drainStack (linkedOps Nat) ([4, 5] : List Nat).length
       (pushAll (linkedOps Nat) ⟨LinkedList.ctor⟩ [4, 5])
         = ([4, 5] : List Nat).reverse) :=
  ⟨by decide, by decide,
    claim_C6 (arrayOps Nat) (linkedOps Nat) (StackAdapter.mk (ArrayList.ctor 0 0))
      (QueueAdapter.mk LinkedList.ctor) (by decide) (by decide) 0 [1, 2, 3] [4, 5]⟩

/-- C7: append increases the size by exactly one, the appended value is read
back at index size()-1, and previously stored elements keep their values and
positions, for both sequence types. -/
theorem claim_C7 {α : Type} [Inhabited α] (a : ArrayList α) (ha : a.WF)
    (l : LinkedList α) (hl : l.WF) (v : α) :
    (a.add v).size = a.size + 1 ∧
    (a.add v).toList = a.toList ++ [v] ∧
    (a.add v).get ((a.add v).size - 1) = Except.ok v ∧
    (l.add v).size = l.size + 1 ∧
    (l.add v).chain = l.chain ++ [v] ∧
    (l.add v).get ((l.add v).size - 1) = Except.ok v := by
  simp only [ArrayList.size, LinkedList.size]
  have hsz := ArrayList.add_mSize a v
  have hlist := ArrayList.add_toList a v ha
  refine ⟨hsz, hlist, ?_, rfl, rfl, ?_⟩
  · rw [hsz, Nat.add_sub_cancel]
    have hlt : a.mSize < (a.add v).mSize := by omega
    rw [ArrayList.get_lt (a.add v) a.mSize (ArrayList.add_WF a v ha) (by omega), hlist,
      List.getD_append_right _ _ _ _ (by rw [ArrayList.toList_length a ha]),
      ArrayList.toList_length a ha, Nat.sub_self]
    rfl
  · have h1 : l.chain.length = l.mSize := hl
    have hsz2 : (l.add v).mSize = l.mSize + 1 := rfl
    rw [hsz2, Nat.add_sub_cancel]
    rw [LinkedList.linkedGet_lt (l.add v) l.mSize (by rw [hsz2]; omega)]
    show Except.ok ((l.chain ++ [v]).getD l.mSize default) = Except.ok v
    rw [List.getD_append_right _ _ _ _ (by omega), h1, Nat.sub_self]
    rfl

/-- C7 witness: appending 9 to the array sequence [5,5] and the linked
sequence [1]. -/
theorem claim_C7_witness :
    (ArrayList.ctor 2 (5 : Nat)).WF ∧
    (LinkedList.ctor.add 1 : LinkedList Nat).WF ∧
    (((ArrayList.ctor 2 (5 : Nat)).add 9).size = (ArrayList.ctor 2 (5 : Nat)).size + 1 ∧
     ((ArrayList.ctor 2 (5 : Nat)).add 9).toList = (ArrayList.ctor 2 (5 : Nat)).toList ++ [9] ∧
     ((ArrayList.ctor 2 (5 : Nat)).add 9).get (((ArrayList.ctor 2 (5 : Nat)).add 9).size - 1)
       = Except.ok 9 ∧
     ((LinkedList.ctor.add 1).add 9 : LinkedList Nat).size
       = (LinkedList.ctor.add 1 : LinkedList Nat).size + 1 ∧
     ((LinkedList.ctor.add 1).add 9 : LinkedList Nat).chain
       = (LinkedList.ctor.add 1 : LinkedList Nat).chain ++ [9] ∧
     ((LinkedList.ctor.add 1).add 9 : LinkedList Nat).get
       (((LinkedList.ctor.add 1).add 9 : LinkedList Nat).size - 1) = Except.ok 9) :=
  ⟨by decide, by decide,
    claim_C7 (ArrayList.ctor 2 5) (by decide) (LinkedList.ctor.add 1) (by decide) 9⟩

/-- C8: copy-constructing or assigning from a sequence S yields a sequence
equal to S under operator== (equal size, element-wise equal contents), with
the same logical contents; in the state-passing embedding every mutator
returns a new value, so mutating the copy cannot alter S (and vice versa) —
the copies here are built from fresh buffers/chains, never by sharing. -/
theorem claim_C8 {α : Type} [DecidableEq α] [Inhabited α] (a b : ArrayList α)
    (ha : a.WF) (l m : LinkedList α) (hl : l.WF) :
    ArrayList.beq (ArrayList.copyCtor a) a = true ∧
    ArrayList.beq (ArrayList.assign b a) a = true ∧
    (ArrayList.copyCtor a).toList = a.toList ∧
    LinkedList.beq (LinkedList.copyCtor l) l = true ∧
    LinkedList.beq (LinkedList.assign m l) l = true ∧
    (LinkedList.copyCtor l).chain = l.chain :=
  ⟨ArrayList.beq_copyCtor a ha, ArrayList.beq_copyCtor a ha,
    ArrayList.copyCtor_toList a ha, LinkedList.linkedBeq_copyCtor l hl,
    LinkedList.linkedBeq_copyCtor l hl, rfl⟩

/-- C8 witness: copying the array sequence [5,5] and the linked sequence
[1,2]. -/
theorem claim_C8_witness :
    (ArrayList.ctor 2 (5 : Nat)).WF ∧
    ((LinkedList.ctor.add 1).add 2 : LinkedList Nat).WF ∧
    (ArrayList.beq (ArrayList.copyCtor (ArrayList.ctor 2 (5 : Nat)))
        (ArrayList.ctor 2 (5 : Nat)) = true ∧
     ArrayList.beq (ArrayList.assign (ArrayList.ctor 1 (9 : Nat))
        (ArrayList.ctor 2 (5 : Nat))) (ArrayList.ctor 2 (5 : Nat)) = true ∧
     (ArrayList.copyCtor (ArrayList.ctor 2 (5 : Nat))).toList
        = (ArrayList.ctor 2 (5 : Nat)).toList ∧
     LinkedList.beq (LinkedList.copyCtor ((LinkedList.ctor.add 1).add 2))
        ((LinkedList.ctor.add 1).add 2 : LinkedList Nat) = true ∧
     LinkedList.beq (LinkedList.assign (LinkedList.ctor.add 7)
        ((LinkedList.ctor.add 1).add 2)) ((LinkedList.ctor.add 1).add 2 : LinkedList Nat) = true ∧
     (LinkedList.copyCtor ((LinkedList.ctor.add 1).add 2)).chain
        = ((LinkedList.ctor.add 1).add 2 : LinkedList Nat).chain) :=
  ⟨by decide, by decide,
    claim_C8 (ArrayList.ctor 2 5) (ArrayList.ctor 1 9) (by decide)
      ((LinkedList.ctor.add 1).add 2) (LinkedList.ctor.add 7) (by decide)⟩

/-- C9: clear() never fails (it is total in the embedding), resets either
sequence to the state of a freshly default-constructed instance (size 0,
buffer released / chain empty), and a second clear() immediately afterwards
leaves it empty again (idempotence). -/
theorem claim_C9 {α : Type} [Inhabited α] (a : ArrayList α) (l : LinkedList α) :
    a.clear = ArrayList.ctor 0 default ∧
    a.clear.size = 0 ∧
    a.clear.mCapacity = 0 ∧
    a.clear.mArray = [] ∧
    a.clear.clear = a.clear ∧
    l.clear = LinkedList.ctor ∧
    l.clear.size = 0 ∧
    l.clear.chain = [] ∧
    l.clear.clear = l.clear :=
  ⟨rfl, rfl, rfl, rfl, rfl, rfl, rfl, rfl, rfl⟩

/-- C10: every growth path of the array sequence — the size/value
constructor, append on a full buffer, and positional insert — leaves the
capacity at exactly twice the resulting logical size (so the "at least 10"
of the size-4 scenario is exactly 10), while the copy constructor leaves
capacity equal to the logical size with no excess. -/
theorem claim_C10 {α : Type} [Inhabited α] (n : Nat) (v : α) (a b : ArrayList α)
    (hb : b.size = b.mCapacity) (index : Nat) :
    (ArrayList.ctor n v : ArrayList α).mCapacity
      = 2 * (ArrayList.ctor n v : ArrayList α).size ∧
    (b.add v).mCapacity = 2 * (b.add v).size ∧
    (a.addAt index v).mCapacity = 2 * (a.addAt index v).size ∧
    (ArrayList.copyCtor a).mCapacity = (ArrayList.copyCtor a).size ∧
    (b.size = 4 → (b.add v).mCapacity = 10) := by
  simp only [ArrayList.size] at *
  have hge : b.mSize ≥ b.mCapacity := le_of_eq hb.symm
  refine ⟨?_, ?_, ?_, rfl, ?_⟩
  · simp [ArrayList.ctor]
    omega
  · rw [ArrayList.add_mCapacity, if_pos hge, ArrayList.add_mSize]
    omega
  · rw [ArrayList.addAt_mCapacity, ArrayList.addAt_mSize]
  · intro h4
    rw [ArrayList.add_mCapacity, if_pos hge, h4]

/-- C10 witness: the growth paths at size 4 / capacity 4 with insert index
6. -/
theorem claim_C10_witness :
    ({ mSize := 4, mCapacity := 4, mArray := [1, 2, 3, 4] } : ArrayList Nat).size
      = ({ mSize := 4, mCapacity := 4, mArray := [1, 2, 3, 4] } : ArrayList Nat).mCapacity ∧
    ((ArrayList.ctor 3 (7 : Nat)).mCapacity = 2 * (ArrayList.ctor 3 (7 : Nat)).size ∧
     (({ mSize := 4, mCapacity := 4, mArray := [1, 2, 3, 4] } : ArrayList Nat).add 5).mCapacity
       = 2 * (({ mSize := 4, mCapacity := 4, mArray := [1, 2, 3, 4] } : ArrayList Nat).add 5).size ∧
     ((ArrayList.ctor 2 (7 : Nat)).addAt 6 5).mCapacity
       = 2 * ((ArrayList.ctor 2 (7 : Nat)).addAt 6 5).size ∧
     (ArrayList.copyCtor (ArrayList.ctor 2 (7 : Nat))).mCapacity
       = (ArrayList.copyCtor (ArrayList.ctor 2 (7 : Nat))).size ∧
     (({ mSize := 4, mCapacity := 4, mArray := [1, 2, 3, 4] } : ArrayList Nat).size = 4 →
       (({ mSize := 4, mCapacity := 4, mArray := [1, 2, 3, 4] } : ArrayList Nat).add 5).mCapacity = 10)) :=
  ⟨by decide,
    claim_C10 3 7 (ArrayList.ctor 2 7)
      { mSize := 4, mCapacity := 4, mArray := [1, 2, 3, 4] } (by decide) 6⟩
